import Mathlib

/-!
Shallow embedding of the subtitle-synthesis core of the quran-subtitle-processor
repository (src/index.js; src/unnamed/part_000 and src/unnamed/part_001 hold the
same helpers). JS numbers are modelled as rationals, absent object fields as
Option, and JS string concatenation as String append. The functions embedded
from the source are generateSRT, formatSRTTime and the font-size resolution of
createMediaConvertParams; the spec's text-layout and escaping steps, whose code
is not present under src (generateASS is called in part_001 but never defined),
are modelled from the spec and marked as such.
-/

/-- A verse object as dereferenced by generateSRT: startTime, endTime,
arabic, translation (all optional in the incoming JSON). -/
structure Verse where
  startTime : Option ℚ := none
  endTime : Option ℚ := none
  arabic : Option String := none
  translation : Option String := none
deriving DecidableEq

/-- The preferences object as dereferenced by the code: subtitleOffset,
lang, display, fontSize, opacity, all optional. -/
structure Preferences where
  subtitleOffset : Option ℚ := none
  lang : Option String := none
  display : Option String := none
  fontSize : Option String := none
  opacity : Option String := none
deriving DecidableEq

/-- JS a || b on an optional string: b when a is absent or empty (falsy). -/
def jsStrOr (o : Option String) (d : String) : String :=
  match o with
  | some s => if s = "" then d else s
  | none => d

/-- JS a || b on an optional number: b when a is absent or 0 (falsy). -/
def jsNumOr (o : Option ℚ) (d : ℚ) : ℚ :=
  match o with
  | some q => if q = 0 then d else q
  | none => d

/-- JS verse.arabic || empty-string: the field's value, or empty when absent. -/
def optStr (o : Option String) : String := o.getD ""

/-- display = preferences.lang || preferences.display || both
(src/index.js line 211). -/
def resolveDisplay (p : Preferences) : String :=
  jsStrOr p.lang (jsStrOr p.display "both")

/-- JS truncation toward zero, as used by the % operator on numbers. -/
def jsTrunc (q : ℚ) : ℤ := if q < 0 then ⌈q⌉ else ⌊q⌋

/-- JS remainder: a % b = a - b * trunc (a / b). -/
def jsMod (a b : ℚ) : ℚ := a - b * (jsTrunc (a / b) : ℚ)

/-- JS String.prototype.padStart with a single pad character: left-pad to
length n, unchanged when already at least that long. -/
def padStart (s : String) (n : Nat) (c : Char) : String :=
  if n ≤ s.length then s else String.mk (List.replicate (n - s.length) c) ++ s

/-- src/index.js formatSRTTime (lines 235-242): HH:MM:SS,mmm with each
component floored from the same total-seconds value. -/
def formatSRTTime (seconds : ℚ) : String :=
  let hours : ℤ := ⌊seconds / 3600⌋
  let minutes : ℤ := ⌊jsMod seconds 3600 / 60⌋
  let secs : ℤ := ⌊jsMod seconds 60⌋
  let ms : ℤ := ⌊jsMod seconds 1 * 1000⌋
  padStart (toString hours) 2 '0' ++ ":" ++ padStart (toString minutes) 2 '0' ++ ":" ++
    padStart (toString secs) 2 '0' ++ "," ++ padStart (toString ms) 3 '0'

/-- src/index.js line 214: (verse.startTime !== undefined ? verse.startTime
: index * 5) + offset. -/
def srtStartTime (offset : ℚ) (index : ℕ) (v : Verse) : ℚ :=
  (match v.startTime with
   | some t => t
   | none => (index : ℚ) * 5) + offset

/-- src/index.js line 215: (verse.endTime !== undefined ? verse.endTime
: (index + 1) * 5) + offset. -/
def srtEndTime (offset : ℚ) (index : ℕ) (v : Verse) : ℚ :=
  (match v.endTime with
   | some t => t
   | none => ((index : ℚ) + 1) * 5) + offset

/-- The two conditional text appends of generateSRT (lines 220-226): the
Arabic line unless display is translation, then the translation line when
display is not arabic and verse.translation is truthy. -/
def srtTextLines (display : String) (v : Verse) : String :=
  (if display ≠ "translation" then optStr v.arabic ++ "\n" else "") ++
    (if display ≠ "arabic" ∧ optStr v.translation ≠ "" then optStr v.translation ++ "\n" else "")

/-- One iteration of the verses.forEach loop in generateSRT: cue number,
time-range line, text lines, blank separator. -/
def srtCue (p : Preferences) (index : ℕ) (v : Verse) : String :=
  toString (index + 1) ++ "\n" ++
    formatSRTTime (srtStartTime (jsNumOr p.subtitleOffset 0) index v) ++ " --> " ++
    formatSRTTime (srtEndTime (jsNumOr p.subtitleOffset 0) index v) ++ "\n" ++
    srtTextLines (resolveDisplay p) v ++ "\n"

/-- The forEach accumulation of generateSRT, starting at position i. -/
def srtBody (p : Preferences) : ℕ → List Verse → String
  | _, [] => ""
  | i, v :: rest => srtCue p i v ++ srtBody p (i + 1) rest

/-- src/index.js generateSRT (lines 208-232). -/
def generateSRT (verses : List Verse) (p : Preferences) : String :=
  srtBody p 0 verses

/-- Pairs each list element with its 0-based position, starting at i. -/
def enumFrom {α : Type} : ℕ → List α → List (ℕ × α)
  | _, [] => []
  | i, x :: xs => (i, x) :: enumFrom (i + 1) xs

/-- Concatenation of a list of strings. -/
def concatList : List String → String
  | [] => ""
  | s :: rest => s ++ concatList rest

/-- Font-size resolution of createMediaConvertParams (part_001 lines 274-275):
large 30, small 18, anything else (the medium default) 24. -/
def fontSizeValue (fontSize : Option String) : ℕ :=
  if fontSize = some "large" then 30 else if fontSize = some "small" then 18 else 24

/-- The jobsDB record stored per job by the /process handler. -/
structure JobInfo where
  mediaConvertJobId : String
  status : String
  created : String
deriving DecidableEq

/-- One /process invocation's inputs: the request body fields the SRT path
reads, plus the externally supplied job id, MediaConvert job id and
timestamp. -/
structure ProcessRequest where
  jobId : String
  verses : List Verse
  subtitlePreferences : Preferences
  subtitleOffset : Option ℚ
  mediaConvertJobId : String
  created : String

/-- The SRT content computed by the /process handler (src/index.js line 57):
generateSRT(verses, { ...subtitlePreferences, subtitleOffset: subtitleOffset || 0 }). -/
def processSRTContent (req : ProcessRequest) : String :=
  generateSRT req.verses
    { req.subtitlePreferences with subtitleOffset := some (jsNumOr req.subtitleOffset 0) }

/-- A sequence of /process invocations threading the jobsDB state: each call
computes its SRT content, then records its job (src/index.js lines 109-113). -/
def runProcessSequence : List ProcessRequest → List (String × JobInfo) → List String
  | [], _ => []
  | req :: rest, jobsDB =>
    processSRTContent req ::
      runProcessSequence rest
        (jobsDB ++ [(req.jobId, ⟨req.mediaConvertJobId, "PROCESSING", req.created⟩)])

/-- From the claim's words (C2): the HH:MM:SS,mmm string whose components are
hours = floor [s / 3600] padded to at least 2 digits, minutes =
floor [(s mod 3600) / 60], seconds = floor [s mod 60], and milliseconds =
floor [(s mod 1) * 1000] padded to 3 digits, with a comma before the
fraction; every component floor-based, never rounded. -/
def specSRTTimeString (s : ℚ) : String :=
  padStart (toString (⌊s / 3600⌋).toNat) 2 '0' ++ ":" ++
    padStart (toString (⌊(s - 3600 * (⌊s / 3600⌋ : ℚ)) / 60⌋).toNat) 2 '0' ++ ":" ++
    padStart (toString (⌊s - 60 * (⌊s / 60⌋ : ℚ)⌋).toNat) 2 '0' ++ "," ++
    padStart (toString (⌊(s - (⌊s⌋ : ℚ)) * 1000⌋).toNat) 3 '0'

/-- From the claim's words (C4): a cue whose body is only the Arabic line,
with no translation line. -/
def specArabicOnlyCue (p : Preferences) (i : ℕ) (v : Verse) : String :=
  toString (i + 1) ++ "\n" ++
    formatSRTTime (srtStartTime (jsNumOr p.subtitleOffset 0) i v) ++ " --> " ++
    formatSRTTime (srtEndTime (jsNumOr p.subtitleOffset 0) i v) ++ "\n" ++
    (optStr v.arabic ++ "\n") ++ "\n"

/-- From the claim's words (C4): a cue whose body is only the translation
line (present when the translation is truthy), with no Arabic line. -/
def specTranslationOnlyCue (p : Preferences) (i : ℕ) (v : Verse) : String :=
  toString (i + 1) ++ "\n" ++
    formatSRTTime (srtStartTime (jsNumOr p.subtitleOffset 0) i v) ++ " --> " ++
    formatSRTTime (srtEndTime (jsNumOr p.subtitleOffset 0) i v) ++ "\n" ++
    (if optStr v.translation ≠ "" then optStr v.translation ++ "\n" else "") ++ "\n"

/-- Modelled from the spec: splitting a character list on single spaces,
keeping empty words, as JS split with a one-space separator does. The
text-layout engine is described in the spec but absent from src. -/
def splitSp : List Char → List (List Char)
  | [] => [[]]
  | c :: cs =>
    match splitSp cs with
    | [] => [[c]]
    | w :: ws => if c = ' ' then [] :: w :: ws else (c :: w) :: ws

/-- Joining words back with single spaces (the inverse of splitSp). -/
def joinWords : List (List Char) → List Char
  | [] => []
  | [w] => w
  | w :: ws => w ++ ' ' :: joinWords ws

/-- The space-separated tail of a join: empty for no words, otherwise a
space followed by the join of the words. -/
def sepJoin : List (List Char) → List Char
  | [] => []
  | w :: ws => ' ' :: joinWords (w :: ws)

/-- Modelled from the spec: dropping leading spaces. -/
def ltrim (l : List Char) : List Char := l.dropWhile (· = ' ')

/-- Modelled from the spec: the trim applied to a flushed line, removing
spaces at both ends. -/
def trimChars (l : List Char) : List Char := (ltrim ((ltrim l).reverse)).reverse

/-- Modelled from the spec: one step of the greedy word-wrap accumulation —
start the line with the word when the accumulator is empty, flush the
trimmed current line when appending the next word would exceed the
threshold, otherwise append the word space-joined. -/
def wrapStep (maxLen : ℕ) (acc : List (List Char) × List Char) (w : List Char) :
    List (List Char) × List Char :=
  if acc.2 = [] then (acc.1, w)
  else if maxLen < (acc.2 ++ ' ' :: w).length then (acc.1 ++ [trimChars acc.2], w)
  else (acc.1, acc.2 ++ ' ' :: w)

/-- Modelled from the spec: the word-wrap of the text-layout step — greedy
accumulation of space-separated words with flush-on-overflow; the final
non-empty accumulator is flushed (trimmed). -/
def wrapLine (maxLen : ℕ) (text : String) : List String :=
  let r := (splitSp text.data).foldl (wrapStep maxLen) ([], [])
  (if r.2 = [] then r.1 else r.1 ++ [trimChars r.2]).map fun l => String.mk l

/-- Modelled from the spec: maximum line length for Arabic-script lines. -/
def maxLineArabic : ℕ := 40

/-- Modelled from the spec: maximum line length for translation lines in the
ASS and TTML dialects. -/
def maxLineTranslation : ℕ := 50

/-- Modelled from the spec: the single 40-character SRT threshold used for
both streams. -/
def maxLineSRT : ℕ := 40

/-- Filling words into the wrap accumulator along the no-flush path. -/
def fillWords : List Char → List (List Char) → List Char
  | cur, [] => cur
  | cur, w :: ws => if cur = [] then fillWords w ws else fillWords (cur ++ ' ' :: w) ws

/-- The backslash character, written by code point. -/
def bslash : Char := Char.ofNat 92

/-- The opening curly brace character, written by code point. -/
def lbrace : Char := Char.ofNat 123

/-- The closing curly brace character, written by code point. -/
def rbrace : Char := Char.ofNat 125

/-- The double-quote character, written by code point. -/
def dquote : Char := Char.ofNat 34

/-- The apostrophe character, written by code point. -/
def aposChar : Char := Char.ofNat 39

/-- Modelled from the spec: ASS escaping of one character — the dialect
control characters backslash and the two curly braces are backslash-escaped,
all others pass through. The ASS emitter is called in src/unnamed/part_001
but its code is absent from src. -/
def escASSChar (c : Char) : List Char :=
  if c = bslash ∨ c = lbrace ∨ c = rbrace then [bslash, c] else [c]

/-- Modelled from the spec: ASS escaping of a character list. -/
def escapeASSList : List Char → List Char
  | [] => []
  | c :: cs => escASSChar c ++ escapeASSList cs

/-- Modelled from the spec: ASS unescaping; fails on a dangling backslash or
on an unescaped control character, so success certifies that the text
contains only escaped forms. -/
def unescapeASSList : List Char → Option (List Char)
  | [] => some []
  | c :: cs =>
    if c = bslash then
      match cs with
      | [] => none
      | d :: cs' =>
        if d = bslash ∨ d = lbrace ∨ d = rbrace then (unescapeASSList cs').map (fun l => d :: l)
        else none
    else if c = lbrace ∨ c = rbrace then none
    else (unescapeASSList cs).map (fun l => c :: l)

/-- Modelled from the spec: TTML (XML) escaping of one character — the five
XML special characters become entities, all others pass through. The TTML
emitter is described in the spec but absent from src. -/
def escXMLChar (c : Char) : List Char :=
  if c = '&' then ['&', 'a', 'm', 'p', ';']
  else if c = '<' then ['&', 'l', 't', ';']
  else if c = '>' then ['&', 'g', 't', ';']
  else if c = dquote then ['&', 'q', 'u', 'o', 't', ';']
  else if c = aposChar then ['&', 'a', 'p', 'o', 's', ';']
  else [c]

/-- Modelled from the spec: TTML escaping of a character list. -/
def escapeXMLList : List Char → List Char
  | [] => []
  | c :: cs => escXMLChar c ++ escapeXMLList cs

/-- Modelled from the spec: TTML unescaping; fails on a raw angle bracket or
an ampersand that does not start a known entity, so success certifies that
the text contains only escaped forms. -/
def unescapeXMLList : List Char → Option (List Char)
  | [] => some []
  | c :: cs =>
    if c = '<' ∨ c = '>' then none
    else if c = '&' then
      if cs.take 4 = ['a', 'm', 'p', ';'] then
        (unescapeXMLList (cs.drop 4)).map (fun l => '&' :: l)
      else if cs.take 3 = ['l', 't', ';'] then
        (unescapeXMLList (cs.drop 3)).map (fun l => '<' :: l)
      else if cs.take 3 = ['g', 't', ';'] then
        (unescapeXMLList (cs.drop 3)).map (fun l => '>' :: l)
      else if cs.take 5 = ['q', 'u', 'o', 't', ';'] then
        (unescapeXMLList (cs.drop 5)).map (fun l => dquote :: l)
      else if cs.take 5 = ['a', 'p', 'o', 's', ';'] then
        (unescapeXMLList (cs.drop 5)).map (fun l => aposChar :: l)
      else none
    else (unescapeXMLList cs).map (fun l => c :: l)
termination_by l => l.length
decreasing_by
  all_goals simp [List.length_drop]
  all_goals omega

/-- A character that is not a raw angle bracket. -/
def xmlSafe (c : Char) : Bool := !(c == '<' || c == '>')

/-- Modelled from the spec: ASS escaping at the string level. -/
def escapeASS (s : String) : String := String.mk (escapeASSList s.data)

/-- Modelled from the spec: ASS unescaping at the string level. -/
def unescapeASS (s : String) : Option String := (unescapeASSList s.data).map String.mk

/-- Modelled from the spec: TTML escaping at the string level. -/
def escapeXML (s : String) : String := String.mk (escapeXMLList s.data)

/-- Modelled from the spec: TTML unescaping at the string level. -/
def unescapeXML (s : String) : Option String := (unescapeXMLList s.data).map String.mk

theorem jsNumOr_eq_getD (o : Option ℚ) : jsNumOr o 0 = o.getD 0 := by
  cases o with
  | none => rfl
  | some q =>
    by_cases h : q = 0 <;> simp [jsNumOr, h]

theorem jsMod_nonneg_eq (s b : ℚ) (hs : 0 ≤ s) (hb : 0 < b) :
    jsMod s b = s - b * (⌊s / b⌋ : ℚ) := by
  unfold jsMod jsTrunc
  rw [if_neg (not_lt.mpr (div_nonneg hs hb.le))]

theorem formatSRTTime_floor (s : ℚ) (hs : 0 ≤ s) :
    formatSRTTime s =
      padStart (toString ⌊s / 3600⌋) 2 '0' ++ ":" ++
        padStart (toString ⌊(s - 3600 * (⌊s / 3600⌋ : ℚ)) / 60⌋) 2 '0' ++ ":" ++
        padStart (toString ⌊s - 60 * (⌊s / 60⌋ : ℚ)⌋) 2 '0' ++ "," ++
        padStart (toString ⌊(s - (⌊s⌋ : ℚ)) * 1000⌋) 3 '0' := by
  have h1 := jsMod_nonneg_eq s 3600 hs (by norm_num)
  have h2 := jsMod_nonneg_eq s 60 hs (by norm_num)
  have h3 : jsMod s 1 = s - (⌊s⌋ : ℚ) := by
    have h := jsMod_nonneg_eq s 1 hs one_pos
    simpa using h
  simp only [formatSRTTime]
  rw [h1, h2, h3]

theorem floorMod_nonneg (s b : ℚ) (_hs : 0 ≤ s) (hb : 0 < b) :
    0 ≤ s - b * (⌊s / b⌋ : ℚ) := by
  have h1 : (⌊s / b⌋ : ℚ) ≤ s / b := Int.floor_le _
  have h2 : b * (⌊s / b⌋ : ℚ) ≤ b * (s / b) := mul_le_mul_of_nonneg_left h1 hb.le
  rw [mul_div_cancel₀ s hb.ne'] at h2
  linarith

theorem toString_int_toNat (n : ℤ) (hn : 0 ≤ n) : toString n = toString n.toNat := by
  obtain ⟨m, rfl⟩ := Int.eq_ofNat_of_zero_le hn
  rfl

theorem formatSRTTime_zero : formatSRTTime 0 = "00:00:00,000" := by
  rw [formatSRTTime_floor 0 le_rfl]
  norm_num
  rfl

theorem formatSRTTime_five : formatSRTTime 5 = "00:00:05,000" := by
  rw [formatSRTTime_floor 5 (by norm_num)]
  norm_num
  rfl

theorem srtBody_eq_concat (p : Preferences) (vs : List Verse) : ∀ i : ℕ,
    srtBody p i vs = concatList ((enumFrom i vs).map fun iv => srtCue p iv.1 iv.2) := by
  induction vs with
  | nil => intro i; rfl
  | cons v rest ih =>
    intro i
    simp [srtBody, enumFrom, concatList, ih]

theorem generateSRT_eq_concat (verses : List Verse) (p : Preferences) :
    generateSRT verses p = concatList ((enumFrom 0 verses).map fun iv => srtCue p iv.1 iv.2) :=
  srtBody_eq_concat p verses 0

/-- Claim C1: for every verse list and preferences, the resolved cue start
time is (verse.startTime if supplied, otherwise index * 5) plus the subtitle
offset, and the resolved end time is (verse.endTime if supplied, otherwise
(index + 1) * 5) plus the offset; with subtitleOffset 2 and no explicit
times at index 1, the start is 7 and the end is 12. -/
theorem srt_time_resolution :
    (∀ (p : Preferences) (i : ℕ) (v : Verse),
      srtStartTime (jsNumOr p.subtitleOffset 0) i v
          = v.startTime.getD ((i : ℚ) * 5) + p.subtitleOffset.getD 0 ∧
      srtEndTime (jsNumOr p.subtitleOffset 0) i v
          = v.endTime.getD (((i : ℚ) + 1) * 5) + p.subtitleOffset.getD 0) ∧
    srtStartTime (jsNumOr (some 2) 0) 1 ⟨none, none, none, none⟩ = 7 ∧
    srtEndTime (jsNumOr (some 2) 0) 1 ⟨none, none, none, none⟩ = 12 := by
  refine ⟨fun p i v => ⟨?_, ?_⟩, ?_, ?_⟩
  · unfold srtStartTime
    rw [jsNumOr_eq_getD]
    cases v.startTime <;> rfl
  · unfold srtEndTime
    rw [jsNumOr_eq_getD]
    cases v.endTime <;> rfl
  · norm_num [srtStartTime, jsNumOr]
  · norm_num [srtEndTime, jsNumOr]

/-- Claim C2: for every non-negative seconds value, the SRT time formatter
produces HH:MM:SS,mmm with hours = floor(s/3600) padded to at least two
digits, minutes = floor((s mod 3600)/60), seconds = floor(s mod 60),
milliseconds = floor((s mod 1)*1000) padded to three digits after a comma,
every component floor-truncated, never rounded. -/
theorem srt_time_format_components (s : ℚ) (hs : 0 ≤ s) :
    formatSRTTime s = specSRTTimeString s := by
  rw [formatSRTTime_floor s hs]
  simp only [specSRTTimeString]
  rw [toString_int_toNat ⌊s / 3600⌋ (Int.floor_nonneg.mpr (div_nonneg hs (by norm_num))),
    toString_int_toNat ⌊(s - 3600 * (⌊s / 3600⌋ : ℚ)) / 60⌋
      (Int.floor_nonneg.mpr (div_nonneg (floorMod_nonneg s 3600 hs (by norm_num)) (by norm_num))),
    toString_int_toNat ⌊s - 60 * (⌊s / 60⌋ : ℚ)⌋
      (Int.floor_nonneg.mpr (floorMod_nonneg s 60 hs (by norm_num))),
    toString_int_toNat ⌊(s - (⌊s⌋ : ℚ)) * 1000⌋
      (Int.floor_nonneg.mpr (mul_nonneg (by linarith [Int.floor_le s]) (by norm_num)))]

/-- Witness for C2 at s = 7323/2 (= 3661.5 seconds). -/
theorem srt_time_format_components_witness :
    formatSRTTime ((7323 : ℚ) / 2) = specSRTTimeString ((7323 : ℚ) / 2) :=
  srt_time_format_components ((7323 : ℚ) / 2) (by norm_num)

/-- Claim C3: the SRT document is the in-order concatenation of cues, each
being its 1-based number line, the start --> end time line, the text lines,
and a blank separator; Scenario A on a single basmala verse yields cue 1
with time line 00:00:00,000 --> 00:00:05,000, the Arabic line, the
translation line, and a blank line. -/
theorem srt_document_structure :
    (∀ (verses : List Verse) (p : Preferences),
      generateSRT verses p = concatList ((enumFrom 0 verses).map fun iv => srtCue p iv.1 iv.2)) ∧
    (∀ (p : Preferences) (i : ℕ) (v : Verse),
      srtCue p i v = toString (i + 1) ++ "\n" ++
        formatSRTTime (srtStartTime (jsNumOr p.subtitleOffset 0) i v) ++ " --> " ++
        formatSRTTime (srtEndTime (jsNumOr p.subtitleOffset 0) i v) ++ "\n" ++
        srtTextLines (resolveDisplay p) v ++ "\n") ∧
    generateSRT [⟨none, none, some "بسم الله", some "In the name of Allah"⟩]
        ⟨none, none, none, none, none⟩
      = "1\n00:00:00,000 --> 00:00:05,000\nبسم الله\nIn the name of Allah\n\n" := by
  refine ⟨generateSRT_eq_concat, fun p i v => rfl, ?_⟩
  have hs : srtStartTime (jsNumOr none 0) 0
      (⟨none, none, some "بسم الله", some "In the name of Allah"⟩ : Verse) = 0 := by
    norm_num [srtStartTime, jsNumOr]
  have he : srtEndTime (jsNumOr none 0) 0
      (⟨none, none, some "بسم الله", some "In the name of Allah"⟩ : Verse) = 5 := by
    norm_num [srtEndTime, jsNumOr]
  show srtCue _ 0 _ ++ srtBody _ 1 [] = _
  simp only [srtCue, srtBody, hs, he, formatSRTTime_zero, formatSRTTime_five]
  rfl

/-- Claim C9: synthesis never fails on absent optional fields — absent
startTime and endTime fall back to index-based timing, absent
subtitleOffset to 0, absent lang and display to both, absent arabic to the
empty string, absent fontSize to the medium value 24, and a document string
is still produced. -/
theorem srt_optional_defaults :
    (∀ i : ℕ, srtStartTime (jsNumOr none 0) i ⟨none, none, none, none⟩ = (i : ℚ) * 5) ∧
    (∀ i : ℕ, srtEndTime (jsNumOr none 0) i ⟨none, none, none, none⟩ = ((i : ℚ) + 1) * 5) ∧
    jsNumOr none 0 = 0 ∧
    resolveDisplay ⟨none, none, none, none, none⟩ = "both" ∧
    optStr none = "" ∧
    fontSizeValue none = 24 ∧
    generateSRT [⟨none, none, none, none⟩] ⟨none, none, none, none, none⟩
      = "1\n00:00:00,000 --> 00:00:05,000\n\n\n" := by
  refine ⟨fun i => ?_, fun i => ?_, rfl, rfl, rfl, rfl, ?_⟩
  · simp [srtStartTime, jsNumOr]
  · simp [srtEndTime, jsNumOr]
  · have hs : srtStartTime (jsNumOr none 0) 0 (⟨none, none, none, none⟩ : Verse) = 0 := by
      norm_num [srtStartTime, jsNumOr]
    have he : srtEndTime (jsNumOr none 0) 0 (⟨none, none, none, none⟩ : Verse) = 5 := by
      norm_num [srtEndTime, jsNumOr]
    show srtCue _ 0 _ ++ srtBody _ 1 [] = _
    simp only [srtCue, srtBody, hs, he, formatSRTTime_zero, formatSRTTime_five]
    rfl

theorem srtCue_arabic_only (p : Preferences) (i : ℕ) (v : Verse)
    (h : resolveDisplay p = "arabic") : srtCue p i v = specArabicOnlyCue p i v := by
  simp only [srtCue, specArabicOnlyCue, srtTextLines, h]
  rw [if_pos (by decide : ("arabic" : String) ≠ "translation"),
    if_neg (by simp : ¬(("arabic" : String) ≠ "arabic" ∧ optStr v.translation ≠ "")),
    String.append_empty]

theorem srtCue_translation_only (p : Preferences) (i : ℕ) (v : Verse)
    (h : resolveDisplay p = "translation") : srtCue p i v = specTranslationOnlyCue p i v := by
  simp only [srtCue, specTranslationOnlyCue, srtTextLines, h]
  rw [if_neg (by simp : ¬(("translation" : String) ≠ "translation"))]
  by_cases ht : optStr v.translation ≠ ""
  · rw [if_pos ⟨by decide, ht⟩, if_pos ht, String.empty_append]
  · rw [if_neg (fun hc => ht hc.2), if_neg ht, String.empty_append]

/-- Claim C4: with a display (or lang) selector resolving to arabic the
document contains no translation line for any verse, and with a selector
resolving to translation it contains no Arabic line. -/
theorem srt_display_filter :
    (∀ (p : Preferences) (verses : List Verse), resolveDisplay p = "arabic" →
      generateSRT verses p
        = concatList ((enumFrom 0 verses).map fun iv => specArabicOnlyCue p iv.1 iv.2)) ∧
    (∀ (p : Preferences) (verses : List Verse), resolveDisplay p = "translation" →
      generateSRT verses p
        = concatList ((enumFrom 0 verses).map fun iv => specTranslationOnlyCue p iv.1 iv.2)) := by
  constructor
  · intro p verses h
    rw [generateSRT_eq_concat]
    exact congrArg concatList
      (List.map_congr_left fun iv _ => srtCue_arabic_only p iv.1 iv.2 h)
  · intro p verses h
    rw [generateSRT_eq_concat]
    exact congrArg concatList
      (List.map_congr_left fun iv _ => srtCue_translation_only p iv.1 iv.2 h)

/-- Witness for C4 on a verse holding both text layers, once with display
arabic and once with display translation. -/
theorem srt_display_filter_witness :
    generateSRT [⟨none, none, some "بسم", some "In the name"⟩]
        ⟨none, none, some "arabic", none, none⟩
      = concatList ((enumFrom 0 [(⟨none, none, some "بسم", some "In the name"⟩ : Verse)]).map
          fun iv => specArabicOnlyCue ⟨none, none, some "arabic", none, none⟩ iv.1 iv.2) ∧
    generateSRT [⟨none, none, some "بسم", some "In the name"⟩]
        ⟨none, none, some "translation", none, none⟩
      = concatList ((enumFrom 0 [(⟨none, none, some "بسم", some "In the name"⟩ : Verse)]).map
          fun iv => specTranslationOnlyCue ⟨none, none, some "translation", none, none⟩ iv.1 iv.2) :=
  ⟨srt_display_filter.1 ⟨none, none, some "arabic", none, none⟩ _ rfl,
   srt_display_filter.2 ⟨none, none, some "translation", none, none⟩ _ rfl⟩

/-- Claim C7: synthesis is deterministic and stateless — a sequence of
/process invocations yields per-call SRT outputs that are a pure map of each
call's own verses and preferences, independent of the jobsDB state and of
earlier calls; two requests with identical verses, preferences and offset
produce byte-identical documents whatever their other fields. -/
theorem synthesize_stateless_deterministic :
    (∀ (reqs : List ProcessRequest) (jobsDB : List (String × JobInfo)),
      runProcessSequence reqs jobsDB = reqs.map processSRTContent) ∧
    (∀ r₁ r₂ : ProcessRequest, r₁.verses = r₂.verses →
      r₁.subtitlePreferences = r₂.subtitlePreferences →
      r₁.subtitleOffset = r₂.subtitleOffset →
      processSRTContent r₁ = processSRTContent r₂) := by
  constructor
  · intro reqs
    induction reqs with
    | nil => intro jobsDB; rfl
    | cons req rest ih => intro jobsDB; simp [runProcessSequence, ih]
  · intro r₁ r₂ hv hp ho
    simp only [processSRTContent, hv, hp, ho]

/-- Witness for C7: two requests differing in job ids and timestamps but
with identical verses and preferences give identical SRT output. -/
theorem synthesize_stateless_deterministic_witness :
    runProcessSequence [⟨"job-a", [], ⟨none, none, none, none, none⟩, none, "mc-a", "t1"⟩] []
      = [(⟨"job-a", [], ⟨none, none, none, none, none⟩, none, "mc-a", "t1"⟩ : ProcessRequest)].map
          processSRTContent ∧
    processSRTContent ⟨"job-a", [], ⟨none, none, none, none, none⟩, none, "mc-a", "t1"⟩
      = processSRTContent ⟨"job-b", [], ⟨none, none, none, none, none⟩, none, "mc-b", "t2"⟩ :=
  ⟨synthesize_stateless_deterministic.1 _ [],
   synthesize_stateless_deterministic.2 _ _ rfl rfl rfl⟩

/-- Claim C10: the lang selector takes precedence over display; display is
consulted only when lang is absent or empty; any selector other than the
exact strings arabic and translation emits both layers. -/
theorem srt_lang_precedence :
    (∀ (l : String) (so : Option ℚ) (d fs op : Option String), l ≠ "" →
      resolveDisplay ⟨so, some l, d, fs, op⟩ = l) ∧
    (∀ p : Preferences, p.lang = none → resolveDisplay p = jsStrOr p.display "both") ∧
    (∀ p : Preferences, p.lang = some "" → resolveDisplay p = jsStrOr p.display "both") ∧
    (∀ (dsp : String) (v : Verse), dsp ≠ "arabic" → dsp ≠ "translation" →
      srtTextLines dsp v = srtTextLines "both" v) := by
  refine ⟨fun l so d fs op hl => ?_, fun p hp => ?_, fun p hp => ?_, fun dsp v h1 h2 => ?_⟩
  · simp [resolveDisplay, jsStrOr, hl]
  · simp [resolveDisplay, hp, jsStrOr]
  · simp [resolveDisplay, hp, jsStrOr]
  · simp only [srtTextLines]
    rw [if_pos h2, if_pos (by decide : ("both" : String) ≠ "translation")]
    by_cases ht : optStr v.translation ≠ ""
    · rw [if_pos ⟨h1, ht⟩, if_pos ⟨by decide, ht⟩]
    · rw [if_neg (fun hc => ht hc.2), if_neg (fun hc => ht hc.2)]

/-- Witness for C10: lang overrides display; display is used when lang is
absent or empty; an unknown selector behaves as both. -/
theorem srt_lang_precedence_witness :
    resolveDisplay ⟨none, some "arabic", some "translation", none, none⟩ = "arabic" ∧
    resolveDisplay ⟨none, none, some "x", none, none⟩ = jsStrOr (some "x") "both" ∧
    resolveDisplay ⟨none, some "", some "x", none, none⟩ = jsStrOr (some "x") "both" ∧
    srtTextLines "weird" ⟨none, none, some "بسم", some "In the name"⟩
      = srtTextLines "both" ⟨none, none, some "بسم", some "In the name"⟩ :=
  ⟨srt_lang_precedence.1 "arabic" none (some "translation") none none (by decide),
   srt_lang_precedence.2.1 _ rfl,
   srt_lang_precedence.2.2.1 _ rfl,
   srt_lang_precedence.2.2.2 "weird" _ (by decide) (by decide)⟩

/-- Claim C8: a verse with neither arabic nor translation still produces a
cue — its number and time-range line are emitted and it keeps its slot in
the body, so later cue numbering is unchanged — and the cue body carries no
text (only the empty Arabic line when display is not translation). -/
theorem srt_empty_verse_slot :
    ∀ (p : Preferences) (i : ℕ) (v : Verse) (rest : List Verse),
      v.arabic = none → v.translation = none →
      (srtCue p i v = toString (i + 1) ++ "\n" ++
          formatSRTTime (srtStartTime (jsNumOr p.subtitleOffset 0) i v) ++ " --> " ++
          formatSRTTime (srtEndTime (jsNumOr p.subtitleOffset 0) i v) ++ "\n" ++
          (if resolveDisplay p ≠ "translation" then "\n" else "") ++ "\n") ∧
      srtBody p i (v :: rest) = srtCue p i v ++ srtBody p (i + 1) rest := by
  intro p i v rest ha ht
  refine ⟨?_, rfl⟩
  simp only [srtCue, srtTextLines, ha, ht, optStr, Option.getD_none]
  rw [if_neg (by simp : ¬(resolveDisplay p ≠ "arabic" ∧ ("" : String) ≠ "")),
    String.append_empty]
  by_cases hd : resolveDisplay p ≠ "translation"
  · rw [if_pos hd, if_pos hd, String.empty_append]
  · rw [if_neg hd, if_neg hd]

/-- Witness for C8 on the all-absent verse with default preferences. -/
theorem srt_empty_verse_slot_witness :
    (srtCue ⟨none, none, none, none, none⟩ 0 ⟨none, none, none, none⟩
        = toString (0 + 1) ++ "\n" ++
          formatSRTTime (srtStartTime (jsNumOr none 0) 0 ⟨none, none, none, none⟩) ++ " --> " ++
          formatSRTTime (srtEndTime (jsNumOr none 0) 0 ⟨none, none, none, none⟩) ++ "\n" ++
          (if resolveDisplay ⟨none, none, none, none, none⟩ ≠ "translation" then "\n" else "")
          ++ "\n") ∧
    srtBody ⟨none, none, none, none, none⟩ 0 [⟨none, none, none, none⟩]
      = srtCue ⟨none, none, none, none, none⟩ 0 ⟨none, none, none, none⟩ ++
          srtBody ⟨none, none, none, none, none⟩ 1 [] :=
  srt_empty_verse_slot ⟨none, none, none, none, none⟩ 0 ⟨none, none, none, none⟩ [] rfl rfl

theorem splitSp_ne_nil (l : List Char) : splitSp l ≠ [] := by
  cases l with
  | nil => simp [splitSp]
  | cons c cs =>
    rcases h : splitSp cs with _ | ⟨w, ws⟩
    · simp [splitSp, h]
    · by_cases hc : c = ' ' <;> simp [splitSp, h, hc]

theorem joinWords_cons (w : List Char) (ws : List (List Char)) :
    joinWords (w :: ws) = w ++ sepJoin ws := by
  cases ws with
  | nil => simp [joinWords, sepJoin]
  | cons x xs => simp [joinWords, sepJoin]

theorem joinWords_splitSp (l : List Char) : joinWords (splitSp l) = l := by
  induction l with
  | nil => rfl
  | cons c cs ih =>
    rcases h : splitSp cs with _ | ⟨w, ws⟩
    · exact absurd h (splitSp_ne_nil cs)
    · rw [h] at ih
      by_cases hc : c = ' '
      · have hsp : splitSp (c :: cs) = [] :: w :: ws := by simp [splitSp, h, hc]
        rw [hsp, joinWords_cons, List.nil_append, sepJoin, ih, hc]
      · have hsp : splitSp (c :: cs) = (c :: w) :: ws := by simp [splitSp, h, hc]
        rw [hsp, joinWords_cons, List.cons_append]
        rw [joinWords_cons] at ih
        rw [ih]

theorem splitSp_no_space (l : List Char) : ∀ w ∈ splitSp l, ' ' ∉ w := by
  induction l with
  | nil =>
    intro w hw
    simp [splitSp] at hw
    subst hw
    simp
  | cons c cs ih =>
    rcases h : splitSp cs with _ | ⟨w, ws⟩
    · exact absurd h (splitSp_ne_nil cs)
    · rw [h] at ih
      intro u hu
      by_cases hc : c = ' '
      · have hsp : splitSp (c :: cs) = [] :: w :: ws := by simp [splitSp, h, hc]
        rw [hsp] at hu
        rcases List.mem_cons.mp hu with hr | hu2
        · subst hr; simp
        · exact ih u hu2
      · have hsp : splitSp (c :: cs) = (c :: w) :: ws := by simp [splitSp, h, hc]
        rw [hsp] at hu
        rcases List.mem_cons.mp hu with hr | hu2
        · subst hr
          intro hsp2
          rcases List.mem_cons.mp hsp2 with he | hw2
          · exact hc he.symm
          · exact ih w (List.mem_cons_self w ws) hw2
        · exact ih u (List.mem_cons_of_mem w hu2)

theorem fillWords_ne_nil (ws : List (List Char)) : ∀ cur : List Char, cur ≠ [] →
    fillWords cur ws = cur ++ sepJoin ws := by
  induction ws with
  | nil => intro cur h; simp [fillWords, sepJoin]
  | cons w ws ih =>
    intro cur h
    simp only [fillWords, if_neg h]
    rw [ih (cur ++ ' ' :: w) (by simp), sepJoin, joinWords_cons]
    simp [List.append_assoc]

theorem le_length_fillWords (ws : List (List Char)) : ∀ cur : List Char,
    cur.length ≤ (fillWords cur ws).length := by
  induction ws with
  | nil => intro cur; simp [fillWords]
  | cons w ws ih =>
    intro cur
    by_cases h : cur = []
    · subst h; simp
    · simp only [fillWords, if_neg h]
      calc cur.length ≤ (cur ++ ' ' :: w).length := by simp
        _ ≤ _ := ih (cur ++ ' ' :: w)

theorem fillWords_nil_eq (ws : List (List Char)) (hws : ∀ w ∈ ws, ' ' ∉ w) :
    fillWords [] ws = ltrim (joinWords ws) := by
  induction ws with
  | nil => rfl
  | cons w ws ih =>
    have hws' : ∀ u ∈ ws, ' ' ∉ u := fun u hu => hws u (List.mem_cons_of_mem w hu)
    simp only [fillWords, if_pos rfl]
    by_cases hw : w = []
    · subst hw
      rw [ih hws', joinWords_cons, List.nil_append]
      cases ws with
      | nil => rfl
      | cons x xs =>
        rw [sepJoin]
        simp [ltrim, List.dropWhile_cons]
    · rw [fillWords_ne_nil ws w hw, joinWords_cons]
      cases w with
      | nil => exact absurd rfl hw
      | cons a as =>
        have ha : a ≠ ' ' := by
          intro e
          exact hws (a :: as) (List.mem_cons_self _ _) (e ▸ List.mem_cons_self a as)
        rw [List.cons_append]
        simp [ltrim, List.dropWhile_cons, ha]

theorem foldl_wrapStep_no_flush (m : ℕ) (ws : List (List Char)) :
    ∀ (lines : List (List Char)) (cur : List Char),
      (fillWords cur ws).length ≤ m →
      ws.foldl (wrapStep m) (lines, cur) = (lines, fillWords cur ws) := by
  induction ws with
  | nil => intro lines cur h; simp [fillWords]
  | cons w ws ih =>
    intro lines cur h
    by_cases hc : cur = []
    · subst hc
      rw [List.foldl_cons]
      have hstep : wrapStep m ((lines, ([] : List Char)) : List (List Char) × List Char) w
          = (lines, w) := by
        simp [wrapStep]
      rw [hstep]
      have hfill : fillWords ([] : List Char) (w :: ws) = fillWords w ws := by
        simp [fillWords]
      rw [hfill] at h
      exact (ih lines w h).trans (by rw [hfill])
    · have hfill : fillWords cur (w :: ws) = fillWords (cur ++ ' ' :: w) ws := by
        simp [fillWords, hc]
      rw [hfill] at h
      have hlen : ¬ m < (cur ++ ' ' :: w).length := by
        have h1 := le_length_fillWords ws (cur ++ ' ' :: w)
        omega
      rw [List.foldl_cons]
      have hstep : wrapStep m (lines, cur) w = (lines, cur ++ ' ' :: w) := by
        simp only [wrapStep]
        rw [if_neg hc, if_neg hlen]
      rw [hstep, hfill]
      exact ih lines (cur ++ ' ' :: w) h

theorem ltrim_ne_nil_of_nonblank (l : List Char) (h : ∃ c ∈ l, c ≠ ' ') : ltrim l ≠ [] := by
  intro hl
  obtain ⟨c, hc, hcs⟩ := h
  simp only [ltrim] at hl
  have h2 := List.dropWhile_eq_nil_iff.mp hl c hc
  simp at h2
  exact hcs h2

theorem trimChars_ltrim (l : List Char) : trimChars (ltrim l) = trimChars l := by
  simp only [trimChars, ltrim, List.dropWhile_idempotent]

/-- Claim C5 (amended): for every string containing at least one non-space
character and strictly shorter than the threshold (40 for Arabic and for
SRT, 50 for translation in ASS/TTML), the greedy word-wrap returns exactly
one line equal to the trimmed input; the greedy step flushes the trimmed
current line whenever appending the next word would exceed the threshold. -/
theorem wrap_single_line (m : ℕ) (text : String) (hlen : text.length < m)
    (hblank : ∃ c ∈ text.data, c ≠ ' ') :
    wrapLine m text = [String.mk (trimChars text.data)] := by
  have hns := splitSp_no_space text.data
  have hfill : fillWords [] (splitSp text.data) = ltrim text.data := by
    rw [fillWords_nil_eq _ hns, joinWords_splitSp]
  have hlen2 : (fillWords [] (splitSp text.data)).length ≤ m := by
    rw [hfill]
    have h1 : (ltrim text.data).length ≤ text.data.length :=
      (List.dropWhile_sublist _).length_le
    have h2 : text.length = text.data.length := rfl
    omega
  have hfold := foldl_wrapStep_no_flush m (splitSp text.data) [] [] hlen2
  have hne : ltrim text.data ≠ [] := ltrim_ne_nil_of_nonblank text.data hblank
  simp [wrapLine, hfold, hfill, hne, trimChars_ltrim]

/-- Counterexample to C5 as stated: the one-space string is a non-empty
string shorter than the SRT threshold, yet the wrap returns no line at all
rather than one line equal to the trimmed input. -/
theorem wrap_single_line_counterexample :
    (" " : String) ≠ "" ∧ (" " : String).length < maxLineSRT ∧
      wrapLine maxLineSRT " " = [] ∧
      wrapLine maxLineSRT " " ≠ [String.mk (trimChars (" " : String).data)] := by
  refine ⟨by decide, by decide, by decide, by decide⟩

/-- Witness for the amended C5 on a short translation line at the SRT
threshold. -/
theorem wrap_single_line_witness :
    wrapLine maxLineSRT "In the name of Allah"
      = [String.mk (trimChars ("In the name of Allah" : String).data)] :=
  wrap_single_line maxLineSRT "In the name of Allah" (by decide) (by decide)

theorem unescapeASSList_escapeASSList (l : List Char) :
    unescapeASSList (escapeASSList l) = some l := by
  induction l with
  | nil => rfl
  | cons c cs ih =>
    by_cases hc : c = bslash ∨ c = lbrace ∨ c = rbrace
    · simp only [escapeASSList, escASSChar, if_pos hc, List.cons_append, List.nil_append]
      rw [unescapeASSList.eq_def]
      simp only [if_pos rfl]
      rw [if_pos hc, ih]
      rfl
    · simp only [escapeASSList, escASSChar, if_neg hc, List.cons_append, List.nil_append]
      have h1 : c ≠ bslash := fun e => hc (Or.inl e)
      have h2 : ¬(c = lbrace ∨ c = rbrace) := fun e => hc (Or.inr e)
      rw [unescapeASSList.eq_def]
      simp only [if_neg h1, if_neg h2, ih]
      rfl

theorem unescapeXML_amp (cs : List Char) :
    unescapeXMLList ('&' :: 'a' :: 'm' :: 'p' :: ';' :: cs)
      = (unescapeXMLList cs).map (fun l => '&' :: l) := by
  rw [unescapeXMLList]
  rw [if_neg (by decide : ¬(('&' : Char) = '<' ∨ ('&' : Char) = '>')), if_pos rfl]
  rw [if_pos (by simp [List.take])]
  simp [List.drop]

theorem unescapeXML_lt (cs : List Char) :
    unescapeXMLList ('&' :: 'l' :: 't' :: ';' :: cs)
      = (unescapeXMLList cs).map (fun l => '<' :: l) := by
  rw [unescapeXMLList]
  rw [if_neg (by decide : ¬(('&' : Char) = '<' ∨ ('&' : Char) = '>')), if_pos rfl]
  rw [if_neg (by simp [List.take]), if_pos (by simp [List.take])]
  simp [List.drop]

theorem unescapeXML_gt (cs : List Char) :
    unescapeXMLList ('&' :: 'g' :: 't' :: ';' :: cs)
      = (unescapeXMLList cs).map (fun l => '>' :: l) := by
  rw [unescapeXMLList]
  rw [if_neg (by decide : ¬(('&' : Char) = '<' ∨ ('&' : Char) = '>')), if_pos rfl]
  rw [if_neg (by simp [List.take]), if_neg (by simp [List.take]),
    if_pos (by simp [List.take])]
  simp [List.drop]

theorem unescapeXML_quot (cs : List Char) :
    unescapeXMLList ('&' :: 'q' :: 'u' :: 'o' :: 't' :: ';' :: cs)
      = (unescapeXMLList cs).map (fun l => dquote :: l) := by
  rw [unescapeXMLList]
  rw [if_neg (by decide : ¬(('&' : Char) = '<' ∨ ('&' : Char) = '>')), if_pos rfl]
  rw [if_neg (by simp [List.take]), if_neg (by simp [List.take]),
    if_neg (by simp [List.take]), if_pos (by simp [List.take])]
  simp [List.drop]

theorem unescapeXML_apos (cs : List Char) :
    unescapeXMLList ('&' :: 'a' :: 'p' :: 'o' :: 's' :: ';' :: cs)
      = (unescapeXMLList cs).map (fun l => aposChar :: l) := by
  rw [unescapeXMLList]
  rw [if_neg (by decide : ¬(('&' : Char) = '<' ∨ ('&' : Char) = '>')), if_pos rfl]
  rw [if_neg (by simp [List.take]), if_neg (by simp [List.take]),
    if_neg (by simp [List.take]), if_neg (by simp [List.take]),
    if_pos (by simp [List.take])]
  simp [List.drop]

theorem unescapeXML_plain (c : Char) (cs : List Char)
    (h1 : ¬(c = '<' ∨ c = '>')) (h2 : c ≠ '&') :
    unescapeXMLList (c :: cs) = (unescapeXMLList cs).map (fun l => c :: l) := by
  rw [unescapeXMLList]
  rw [if_neg h1, if_neg h2]

theorem unescapeXMLList_escapeXMLList (l : List Char) :
    unescapeXMLList (escapeXMLList l) = some l := by
  induction l with
  | nil => simp [escapeXMLList, unescapeXMLList]
  | cons c cs ih =>
    by_cases h1 : c = '&'
    · subst h1
      have he : escXMLChar '&' = ['&', 'a', 'm', 'p', ';'] := by decide
      rw [escapeXMLList, he, List.cons_append, List.cons_append, List.cons_append,
        List.cons_append, List.cons_append, List.nil_append, unescapeXML_amp, ih]
      rfl
    · by_cases h2 : c = '<'
      · subst h2
        have he : escXMLChar '<' = ['&', 'l', 't', ';'] := by decide
        rw [escapeXMLList, he, List.cons_append, List.cons_append, List.cons_append,
          List.cons_append, List.nil_append, unescapeXML_lt, ih]
        rfl
      · by_cases h3 : c = '>'
        · subst h3
          have he : escXMLChar '>' = ['&', 'g', 't', ';'] := by decide
          rw [escapeXMLList, he, List.cons_append, List.cons_append, List.cons_append,
            List.cons_append, List.nil_append, unescapeXML_gt, ih]
          rfl
        · by_cases h4 : c = dquote
          · subst h4
            have he : escXMLChar dquote = ['&', 'q', 'u', 'o', 't', ';'] := by decide
            rw [escapeXMLList, he, List.cons_append, List.cons_append, List.cons_append,
              List.cons_append, List.cons_append, List.cons_append, List.nil_append,
              unescapeXML_quot, ih]
            rfl
          · by_cases h5 : c = aposChar
            · subst h5
              have he : escXMLChar aposChar = ['&', 'a', 'p', 'o', 's', ';'] := by decide
              rw [escapeXMLList, he, List.cons_append, List.cons_append, List.cons_append,
                List.cons_append, List.cons_append, List.cons_append, List.nil_append,
                unescapeXML_apos, ih]
              rfl
            · have he : escXMLChar c = [c] := by
                simp [escXMLChar, h1, h2, h3, h4, h5]
              have hlt : ¬(c = '<' ∨ c = '>') := fun e => e.elim h2 h3
              rw [escapeXMLList, he, List.cons_append, List.nil_append,
                unescapeXML_plain c _ hlt h1, ih]
              rfl

theorem escapeXMLList_all_safe (l : List Char) : (escapeXMLList l).all xmlSafe = true := by
  induction l with
  | nil => rfl
  | cons c cs ih =>
    rw [escapeXMLList, List.all_append, ih, Bool.and_true]
    by_cases h1 : c = '&'
    · subst h1; decide
    · by_cases h2 : c = '<'
      · subst h2; decide
      · by_cases h3 : c = '>'
        · subst h3; decide
        · by_cases h4 : c = dquote
          · subst h4; decide
          · by_cases h5 : c = aposChar
            · subst h5; decide
            · have he : escXMLChar c = [c] := by
                simp [escXMLChar, h1, h2, h3, h4, h5]
              rw [he]
              simp [List.all_cons, xmlSafe, h2, h3]

/-- Claim C6: escaping is its own certificate — ASS and TTML escaping of any
string unescape back to the original (the parsers fail on any unescaped
control character, so success also certifies that only escaped forms occur),
TTML-escaped text contains no raw angle bracket, and Scenario E's
translation text renders with quot and amp entities. -/
theorem escape_roundtrip :
    (∀ s : String, unescapeASS (escapeASS s) = some s) ∧
    (∀ s : String, unescapeXML (escapeXML s) = some s) ∧
    (∀ s : String, (escapeXML s).data.all xmlSafe = true) ∧
    escapeXML "He said \"peace\" & left" = "He said &quot;peace&quot; &amp; left" := by
  refine ⟨fun s => ?_, fun s => ?_, fun s => ?_, ?_⟩
  · show (unescapeASSList (escapeASSList s.data)).map String.mk = some s
    rw [unescapeASSList_escapeASSList]
    rfl
  · show (unescapeXMLList (escapeXMLList s.data)).map String.mk = some s
    rw [unescapeXMLList_escapeXMLList]
    rfl
  · exact escapeXMLList_all_safe s.data
  · decide
